import Mathlib

/-!
Verification of the sanic router (`src/sanic/router.py`).

The Python module is shallowly embedded here:

* paths and pattern text are `List Char` (`Chars`);
* `url_hash` is translated from `'/'.join(':' for s in url.split('/'))`,
  with `pySplit` / `pyJoin` modelling Python `str.split` / `str.join`;
* `Router.add` compiles a template with `re.sub(r'<(.+?)>', add_parameter, uri)`
  and `re.compile(r'^{...}$')`.  The compiled pattern is modelled as a list of
  `Piece`s (literal chunks and capturing groups) plus an end-anchor flag, and
  Python's backtracking greedy matching of such patterns is implemented by
  `pmatchF` (greedy one-or-more character classes, longest first with
  backtracking); the end anchor `$` accepts the end of the path or one
  trailing newline before it, as in Python.  Literal chunks and custom type
  tokens are modelled with
  literal-string matching, which agrees with `re` semantics whenever they
  contain no regex metacharacters (`regexPlain`); the built-in classes
  `\d`, `[^/]`, `[0-9\\.]`, `[A-Za-z]` are modelled over ASCII as in the
  source patterns;
* the route table `self.routes` (a `defaultdict(list)`) is an insertion
  ordered association list, and `Router.get` returns both the result and the
  possibly-grown table (a `defaultdict` lookup of a missing key inserts an
  empty bucket);
* Python exceptions raised by `get` are the constructors of `RErr`:
  `NotFound`, `InvalidUsage` (status 405), the `IndexError` from
  `routes[url][0]` on an empty bucket, the `AttributeError` from
  `match.groups(1)` when `match` is `None`, and the `ValueError` raised by a
  failing cast.  `int()` is modelled on the digit strings produced by `\d+`,
  and `float()` on strings over the class `[0-9\\.]` (the only strings those
  casts can receive from this code); the float value itself is carried as the
  accepted literal, since no route logic depends on float arithmetic;
* `functools.lru_cache` on `get` is modelled by `Router.getCached` over a
  `RouterState`: the cache is keyed by request object identity (`Request.rid`),
  stores only successful results (exceptions are not cached by `lru_cache`),
  and is bounded by `cap` with least-recently-used eviction.
-/

deriving instance DecidableEq for Except

abbrev Chars := List Char

/-- Python `str.split(sep)` for a one-character separator. -/
def pySplit (sep : Char) : Chars → List Chars
  | [] => [[]]
  | c :: rest =>
    match pySplit sep rest with
    | [] => [[]]
    | s :: ss => if c = sep then [] :: s :: ss else (c :: s) :: ss

/-- Python `sep.join(parts)`. -/
def pyJoin (sep : Chars) : List Chars → Chars
  | [] => []
  | [x] => x
  | x :: y :: xs => x ++ sep ++ pyJoin sep (y :: xs)

/-- Source `url_hash(url)`: `'/'.join(':' for s in url.split('/'))`. -/
def url_hash (url : Chars) : Chars :=
  pyJoin ['/'] ((pySplit '/' url).map (fun _ => [':']))

/-- The sub-pattern inside one capturing group of a compiled route pattern:
one of the four class patterns of `REGEX_TYPES`, or an unknown type token
pasted literally (modelled for metacharacter-free tokens). -/
inductive GSpec
  | digits
  | nonSlash
  | numChars
  | alphaChars
  | litPat (l : Chars)
deriving DecidableEq, Repr

/-- Characters accepted by the one-or-more character classes (`litPat` is not
a character class; its matching is handled separately). -/
def GSpec.accepts : GSpec → Char → Bool
  | .digits, c => c.isDigit
  | .nonSlash, c => c ≠ '/'
  | .numChars, c => c.isDigit || c = '.' || c = '\\'
  | .alphaChars, c => c.isAlpha
  | .litPat _, _ => false

/-- One piece of a compiled pattern: a literal chunk of the template, or a
capturing group. -/
inductive Piece
  | lit (l : Chars)
  | grp (g : GSpec)
deriving DecidableEq, Repr

/-- Cast functions stored in `REGEX_TYPES` (`str`, `int`, `float`). -/
inductive CastTy
  | toStr
  | toInt
  | toFloat
deriving DecidableEq, Repr

/-- Source `Parameter = namedtuple('Parameter', ['name', 'cast'])`. -/
structure Parameter where
  name : Chars
  cast : CastTy
deriving DecidableEq, Repr

/-- Source `REGEX_TYPES` dict: type token to (cast, sub-pattern); `none` for
tokens not in the dict. -/
def REGEX_TYPES (tok : Chars) : Option (CastTy × GSpec) :=
  if tok = "string".data then some (.toStr, .nonSlash)
  else if tok = "int".data then some (.toInt, .digits)
  else if tok = "number".data then some (.toFloat, .numChars)
  else if tok = "alpha".data then some (.toStr, .alphaChars)
  else none

/-- Split at the first `:` (Python `name.split(':', 1)` when `':' in name`). -/
def splitFirstColon : Chars → Option (Chars × Chars)
  | [] => none
  | c :: r =>
    if c = ':' then some ([], r)
    else (splitFirstColon r).map (fun p => (c :: p.1, p.2))

/-- Source `add_parameter(match)`: from the placeholder content, compute the
capturing-group piece and the recorded `Parameter`.  Unknown type tokens fall
back to `(str, pattern)`: the token itself as literal sub-pattern, identity
string cast. -/
def add_parameter (content : Chars) : Piece × Parameter :=
  let np : Chars × Chars :=
    match splitFirstColon content with
    | some p => p
    | none => (content, "string".data)
  match REGEX_TYPES np.2 with
  | some cg => (.grp cg.2, ⟨np.1, cg.1⟩)
  | none => (.grp (.litPat np.2), ⟨np.1, .toStr⟩)

/-- Scan for the first `>` (the lazy `.+?>` continuation): returns the chars
before it and after it.  `.` does not match a newline, so a newline before
the `>` makes the placeholder match fail. -/
def splitAtGt : Chars → Option (Chars × Chars)
  | [] => none
  | c :: r =>
    if c = '>' then some ([], r)
    else if c = '\n' then none
    else (splitAtGt r).map (fun p => (c :: p.1, p.2))

/-- Fuelled scanner for `re.sub(r'<(.+?)>', ..., uri)`: cut the template into
literal chunks (`.inl`, single characters) and placeholder contents (`.inr`).
A placeholder starts at a `<` and its content is the shortest nonempty run of
non-newline characters followed by `>`. -/
def scanPhF : Nat → Chars → List (Chars ⊕ Chars)
  | 0, _ => []
  | _ + 1, [] => []
  | f + 1, c :: r =>
    if c = '<' then
      match r with
      | [] => [.inl ['<']]
      | c2 :: r2 =>
        if c2 = '\n' then .inl ['<'] :: scanPhF f r
        else
          match splitAtGt r2 with
          | some p => .inr (c2 :: p.1) :: scanPhF f p.2
          | none => .inl ['<'] :: scanPhF f r
    else .inl [c] :: scanPhF f r

/-- The scanner with enough fuel for its input. -/
def scanPh (uri : Chars) : List (Chars ⊕ Chars) :=
  scanPhF (uri.length + 1) uri

/-- Pattern piece contributed by one chunk. -/
def chunkPiece : Chars ⊕ Chars → Piece
  | .inl l => .lit l
  | .inr content => (add_parameter content).1

/-- Parameter contributed by one chunk (placeholders only). -/
def chunkParam : Chars ⊕ Chars → Option Parameter
  | .inl _ => none
  | .inr content => some (add_parameter content).2

/-- The pattern compiler: pieces of `pattern_string` and the ordered
parameter list collected by `add_parameter`. -/
def compileUri (uri : Chars) : List Piece × List Parameter :=
  ((scanPh uri).map chunkPiece, (scanPh uri).filterMap chunkParam)

/-- A compiled pattern: `re.compile(r'^{...}$')`.  `Pattern.match` anchors at
the start by itself; the `$` written by `Router.add` is the end anchor. -/
structure RePat where
  endAnchor : Bool
  pieces : List Piece
deriving DecidableEq, Repr

/-- Backtracking matcher for a piece list against the chars of a path,
mirroring `re` on the patterns this module compiles: literal text must match
verbatim, a class group `(C+)` is greedy (longest capture first, backtracking
on failure of the rest), a literal group captures exactly its text.  Returns
the list of captured groups.  When the pieces are exhausted, an end-anchored
match succeeds as Python `$` does: at the very end of the string, or just
before one trailing newline.  Each step consumes one unit of fuel and one
piece, so `pieces.length + 1` fuel is always enough. -/
def pmatchF (anch : Bool) : Nat → List Piece → Chars → Option (List Chars)
  | 0, _, _ => none
  | _ + 1, [], s =>
    if anch then (if s = [] ∨ s = ['\n'] then some [] else none) else some []
  | f + 1, .lit l :: ps, s =>
    if l.isPrefixOf s then pmatchF anch f ps (s.drop l.length) else none
  | f + 1, .grp g :: ps, s =>
    match g with
    | .litPat l =>
      if l.isPrefixOf s then (pmatchF anch f ps (s.drop l.length)).map (l :: ·)
      else none
    | g =>
      (List.range' 1 ((s.takeWhile (GSpec.accepts g)).length)).reverse.findSome?
        (fun k => (pmatchF anch f ps (s.drop k)).map (s.take k :: ·))

/-- The matcher with its canonical fuel. -/
def pmatchA (anch : Bool) (ps : List Piece) (s : Chars) : Option (List Chars) :=
  pmatchF anch (ps.length + 1) ps s

/-- `pattern.match(url)` on a compiled route pattern. -/
def RePat.matchL (p : RePat) (s : Chars) : Option (List Chars) :=
  pmatchA p.endAnchor p.pieces s

/-- A parameter value produced by a cast: `str` keeps the captured text,
`int()` yields a number, `float()` keeps the accepted literal (its numeric
value is never consulted by the router). -/
inductive RVal
  | vstr (s : Chars)
  | vint (n : Nat)
  | vnum (s : Chars)
deriving DecidableEq, Repr

/-- Decimal value of a digit string. -/
def digitsVal (s : Chars) : Nat :=
  s.foldl (fun a c => a * 10 + (c.toNat - 48)) 0

/-- Python `float()` acceptance on strings over the class `[0-9\\.]`:
accepted iff there is at least one digit, no backslash, and at most one dot
(so `float('1.2.3')` and `float('.')` raise `ValueError`). -/
def pyFloatOk (s : Chars) : Bool :=
  s.any Char.isDigit && s.all (fun c => c.isDigit || c = '.') && s.count '.' ≤ 1

/-- Apply a cast function to a captured string; `none` models the exception
raised by a failing cast. -/
def castVal : CastTy → Chars → Option RVal
  | .toStr, s => some (.vstr s)
  | .toInt, s =>
    if s ≠ [] ∧ s.all Char.isDigit then some (.vint (digitsVal s)) else none
  | .toFloat, s => if pyFloatOk s then some (.vnum s) else none

/-- Source `Route = namedtuple('Route', ['handler', 'methods', 'pattern',
'parameters'])`.  The handler is an opaque reference, modelled by a `Nat`
identifier; `methods = []` models a falsy `methods` argument ("any method"). -/
structure Route where
  handler : Nat
  methods : List Chars
  pattern : RePat
  parameters : List Parameter
deriving DecidableEq, Repr

/-- The `Route` built by `Router.add` for a template. -/
def mkRoute (uri : Chars) (methods : List Chars) (handler : Nat) : Route :=
  { handler := handler
    methods := methods
    pattern := ⟨true, (compileUri uri).1⟩
    parameters := (compileUri uri).2 }

/-- The route table `self.routes`: a `defaultdict(list)` as an insertion
ordered association list with unique keys. -/
abbrev RouteDict := List (Chars × List Route)

/-- Dict lookup. -/
def dictFind? : RouteDict → Chars → Option (List Route)
  | [], _ => none
  | e :: rest, k => if e.1 = k then some e.2 else dictFind? rest k

/-- `self.routes[key].append(route)` on a `defaultdict(list)`. -/
def dictAppend : RouteDict → Chars → Route → RouteDict
  | [], k, r => [(k, [r])]
  | e :: rest, k, r =>
    if e.1 = k then (e.1, e.2 ++ [r]) :: rest else e :: dictAppend rest k r

/-- The `defaultdict` side effect of reading `self.routes[key]`: a missing
key is inserted with an empty list. -/
def dictInsertEmpty : RouteDict → Chars → RouteDict
  | [], k => [(k, [])]
  | e :: rest, k => if e.1 = k then e :: rest else e :: dictInsertEmpty rest k

namespace Router

/-- Source `Router.add`: compile the template, build the `Route`, and append
it under the literal uri (no parameters) or under `url_hash(uri)`. -/
def add (d : RouteDict) (uri : Chars) (methods : List Chars) (handler : Nat) :
    RouteDict :=
  let c := compileUri uri
  let key := if c.2.isEmpty then uri else url_hash uri
  dictAppend d key (mkRoute uri methods handler)

end Router

/-- Exceptions raised by `Router.get`: `NotFound(msg)`, `InvalidUsage(msg,
status_code)`, and the runtime errors reachable in the body (`IndexError`
from `self.routes[url][0]` on an empty bucket, `AttributeError` from
`match.groups(1)` on `None`, `ValueError` from a failing cast). -/
inductive RErr
  | notFound (msg : Chars)
  | invalidUsage (msg : Chars) (status : Nat)
  | indexError
  | attributeError
  | valueError
deriving DecidableEq, Repr

/-- Message of `NotFound('Requested URL {} not found'.format(url))`. -/
def notFoundMsg (url : Chars) : Chars :=
  "Requested URL ".data ++ url ++ " not found".data

/-- Message of `InvalidUsage('Method {} not allowed for URL {}'...)`. -/
def methodMsg (m url : Chars) : Chars :=
  "Method ".data ++ m ++ " not allowed for URL ".data ++ url

/-- A successful resolution: handler plus keyword arguments. -/
abbrev GetRes := Nat × List (Chars × RVal)

/-- The keyword-argument comprehension `{p.name: p.cast(value) for value, p in
zip(match.groups(1), route.parameters)}`; `none` models the first failing
cast raising. -/
def extractKw : List Chars → List Parameter → Option (List (Chars × RVal))
  | _, [] => some []
  | [], _ :: _ => some []
  | g :: gs, p :: ps =>
    match castVal p.cast g with
    | none => none
    | some v => (extractKw gs ps).map (fun kw => (p.name, v) :: kw)

/-- The tail of `Router.get` once a route has been picked: the method check,
then parameter extraction from the match (which is `None` in the static
branch when the pattern did not match). -/
def afterSel (r : Route) (mo : Option (List Chars)) (url m : Chars) :
    Except RErr GetRes :=
  if r.methods ≠ [] ∧ m ∉ r.methods then
    .error (.invalidUsage (methodMsg m url) 405)
  else
    match mo with
    | none => .error .attributeError
    | some gs =>
      match extractKw gs r.parameters with
      | none => .error .valueError
      | some kw => .ok (r.handler, kw)

/-- First route of a bucket whose pattern matches (the `for ... break` scan),
with its match. -/
def scanBucket : List Route → Chars → Option (Route × List Chars)
  | [], _ => none
  | r :: rs, url =>
    match r.pattern.matchL url with
    | some gs => some (r, gs)
    | none => scanBucket rs url

/-- Route selection in `Router.get`: the static branch `if url in
self.routes` takes `self.routes[url][0]` and matches its pattern against the
url; otherwise the `url_hash` bucket is scanned in insertion order. -/
def selExc (d : RouteDict) (url : Chars) :
    Except RErr (Route × Option (List Chars)) :=
  match dictFind? d url with
  | some [] => .error .indexError
  | some (r :: _) => .ok (r, r.pattern.matchL url)
  | none =>
    match scanBucket ((dictFind? d (url_hash url)).getD []) url with
    | some rg => .ok (rg.1, some rg.2)
    | none => .error (.notFound (notFoundMsg url))

namespace Router

/-- Source `Router.get` body (undecorated): the outcome together with the
route table after the call — reading `self.routes[url_hash(url)]` on a miss
inserts an empty bucket into the `defaultdict`. -/
def get (d : RouteDict) (url m : Chars) : Except RErr GetRes × RouteDict :=
  (match selExc d url with
   | .error e => .error e
   | .ok rm => afterSel rm.1 rm.2 url m,
   match dictFind? d url with
   | some _ => d
   | none => dictInsertEmpty d (url_hash url))

end Router

/-- A request object: `rid` models Python object identity (the key
`functools.lru_cache` hashes requests by), plus the `url` and `method`
attributes read by `Router.get`. -/
structure Request where
  rid : Nat
  url : Chars
  method : Chars
deriving DecidableEq, Repr

/-- Router state for the cached `get`: the route table and the `lru_cache`
(most recent first), bounded by `cap = Config.ROUTER_CACHE_SIZE`. -/
structure RouterState where
  routes : RouteDict
  cache : List (Nat × GetRes)
  cap : Nat
deriving DecidableEq, Repr

/-- Cache lookup by request identity. -/
def cacheFind : List (Nat × GetRes) → Nat → Option GetRes
  | [], _ => none
  | e :: rest, rid => if e.1 = rid then some e.2 else cacheFind rest rid

namespace Router

/-- The `lru_cache`-decorated `Router.get`: a hit returns the stored result
and refreshes its recency; a miss runs the body, and caches the result only
on success (`lru_cache` does not cache raised exceptions), evicting the
least recently used entry beyond capacity. -/
def getCached (st : RouterState) (req : Request) :
    Except RErr GetRes × RouterState :=
  match cacheFind st.cache req.rid with
  | some v =>
    (.ok v,
     { st with cache := (req.rid, v) :: st.cache.filter (fun e => e.1 ≠ req.rid) })
  | none =>
    let r := Router.get st.routes req.url req.method
    match r.1 with
    | .ok v =>
      (.ok v,
       { routes := r.2, cache := ((req.rid, v) :: st.cache).take st.cap,
         cap := st.cap })
    | .error e => (.error e, { st with routes := r.2 })

end Router

/-- Process a sequence of requests. -/
def runReqs (st : RouterState) : List Request → RouterState
  | [] => st
  | r :: rs => runReqs (Router.getCached st r).2 rs

/-- Characters given their literal meaning by Python regexes; a literal
chunk or custom token made of such characters is matched verbatim by `re`,
as in this model. -/
def regexPlain (s : Chars) : Bool :=
  s.all (fun c =>
    c ∉ ['\\', '.', '^', '$', '*', '+', '?', '(', ')', '[', ']', '\x7b', '\x7d', '|'])

/-- Original template text of one chunk of the scanner output. -/
def chunkText : Chars ⊕ Chars → Chars
  | .inl l => l
  | .inr content => '<' :: (content ++ ['>'])

/-- Original template text of a scanner output. -/
def chunksText (chunks : List (Chars ⊕ Chars)) : Chars :=
  (chunks.map chunkText).flatten

/-- Reassembly of a path from a piece list and captured groups: literal
chunks contribute their text, each group its (valid) capture.  A successful
anchored match reassembles to the whole path. -/
def reassemble : List Piece → List Chars → Option Chars
  | [], [] => some []
  | [], _ :: _ => none
  | .lit l :: ps, gs => (reassemble ps gs).map (fun t => l ++ t)
  | .grp (.litPat l) :: ps, gs =>
    match gs with
    | [] => none
    | x :: gs2 =>
      if x = l then (reassemble ps gs2).map (fun t => x ++ t) else none
  | .grp g :: ps, gs =>
    match gs with
    | [] => none
    | x :: gs2 =>
      if x ≠ [] ∧ x.all (GSpec.accepts g) then
        (reassemble ps gs2).map (fun t => x ++ t)
      else none

/-- One table entry acceptable as `defaultdict` growth over the registered
table `d0`: an empty bucket at a fresh key that is a `url_hash` fixed
point. -/
def extOk (d0 : RouteDict) (e : Chars × List Route) : Prop :=
  e.2 = [] ∧ dictFind? d0 e.1 = none ∧ url_hash e.1 = e.1

/-- `d` is the registered table `d0` plus `defaultdict`-inserted empty
buckets. -/
def RoutesExt (d0 d : RouteDict) : Prop :=
  ∃ ext, d = d0 ++ ext ∧ ∀ e ∈ ext, extOk d0 e

/-- Every cache entry stores, for some already-seen request (selected by
`P`) with that identity, the successful result of the undecorated `get` on
the registered table. -/
def CacheOkP (d0 : RouteDict) (P : Request → Prop)
    (cache : List (Nat × GetRes)) : Prop :=
  ∀ e ∈ cache, ∃ r, P r ∧ r.rid = e.1 ∧
    (Router.get d0 r.url r.method).1 = .ok e.2

/-! ### Helper lemmas -/

theorem extractKw_nil_left (ps : List Parameter) : extractKw [] ps = some [] := by
  cases ps <;> rfl

theorem isPrefixOf_append_self : ∀ (l t : Chars), l.isPrefixOf (l ++ t) = true := by
  intro l t
  induction l with
  | nil => simp [List.isPrefixOf]
  | cons a as ih => simpa [List.isPrefixOf] using ih

theorem eq_append_of_isPrefixOf : ∀ (l s : Chars),
    l.isPrefixOf s = true → s = l ++ s.drop l.length := by
  intro l
  induction l with
  | nil => intro s _; rfl
  | cons a as ih =>
    intro s h
    cases s with
    | nil => simp [List.isPrefixOf] at h
    | cons b bs =>
      simp only [List.isPrefixOf, Bool.and_eq_true, beq_iff_eq] at h
      obtain ⟨rfl, h2⟩ := h
      simpa using ih bs h2

theorem takeWhile_length_le (p : Char → Bool) (s : Chars) :
    (s.takeWhile p).length ≤ s.length := by
  induction s with
  | nil => simp
  | cons c rest ih =>
    cases hp : p c <;> simp [List.takeWhile_cons, hp] <;> omega

theorem pmatchA_nil (anch : Bool) (s : Chars) :
    pmatchA anch [] s =
      (if anch then (if s = [] ∨ s = ['\n'] then some [] else none)
       else some []) :=
  rfl

theorem pmatchA_lit (anch : Bool) (l : Chars) (ps : List Piece) (s : Chars) :
    pmatchA anch (.lit l :: ps) s =
      (if l.isPrefixOf s then pmatchA anch ps (s.drop l.length) else none) :=
  rfl

theorem pmatchA_litPat (anch : Bool) (l : Chars) (ps : List Piece) (s : Chars) :
    pmatchA anch (.grp (.litPat l) :: ps) s =
      (if l.isPrefixOf s then (pmatchA anch ps (s.drop l.length)).map (l :: ·)
       else none) :=
  rfl

theorem pmatchA_grpCls (anch : Bool) (g : GSpec) (ps : List Piece) (s : Chars)
    (hg : ∀ l, g ≠ .litPat l) :
    pmatchA anch (.grp g :: ps) s =
      (List.range' 1 ((s.takeWhile (GSpec.accepts g)).length)).reverse.findSome?
        (fun k => (pmatchA anch ps (s.drop k)).map (s.take k :: ·)) := by
  cases g with
  | litPat l => exact absurd rfl (hg l)
  | digits => rfl
  | nonSlash => rfl
  | numChars => rfl
  | alphaChars => rfl

theorem splitAtGt_eq : ∀ (cs pre post : Chars),
    splitAtGt cs = some (pre, post) → cs = pre ++ '>' :: post := by
  intro cs
  induction cs with
  | nil => intro pre post h; simp [splitAtGt] at h
  | cons c r ih =>
    intro pre post h
    by_cases hgt : c = '>'
    · subst hgt
      simp [splitAtGt] at h
      obtain ⟨rfl, rfl⟩ := h
      rfl
    · by_cases hnl : c = '\n'
      · subst hnl; simp [splitAtGt] at h
      · simp [splitAtGt, hgt, hnl] at h
        obtain ⟨a, ha, rfl⟩ := h
        simp [ih a post ha]

theorem chunksText_cons (ch : Chars ⊕ Chars) (chunks : List (Chars ⊕ Chars)) :
    chunksText (ch :: chunks) = chunkText ch ++ chunksText chunks := by
  simp [chunksText]

theorem scanPhF_text : ∀ (f : Nat) (s : Chars), s.length < f →
    chunksText (scanPhF f s) = s := by
  intro f
  induction f with
  | zero => intro s h; omega
  | succ f ih =>
    intro s hlen
    match s with
    | [] => rfl
    | c :: r =>
      by_cases hc : c = '<'
      · subst hc
        match r with
        | [] => rfl
        | c2 :: r2 =>
          by_cases hnl : c2 = '\n'
          · subst hnl
            have key : scanPhF (f + 1) ('<' :: '\n' :: r2) =
                .inl ['<'] :: scanPhF f ('\n' :: r2) := by
              simp [scanPhF]
            rw [key, chunksText_cons,
              ih ('\n' :: r2) (by simp at hlen ⊢; omega)]
            rfl
          · cases hsp : splitAtGt r2 with
            | some p =>
              have key : scanPhF (f + 1) ('<' :: c2 :: r2) =
                  .inr (c2 :: p.1) :: scanPhF f p.2 := by
                simp [scanPhF, hnl, hsp]
              have hr2 : r2 = p.1 ++ '>' :: p.2 := splitAtGt_eq r2 p.1 p.2 hsp
              have hlt : p.2.length < f := by
                rw [hr2] at hlen; simp at hlen; omega
              rw [key, chunksText_cons, ih p.2 hlt, hr2]
              simp [chunkText]
            | none =>
              have key : scanPhF (f + 1) ('<' :: c2 :: r2) =
                  .inl ['<'] :: scanPhF f (c2 :: r2) := by
                simp [scanPhF, hnl, hsp]
              rw [key, chunksText_cons,
                ih (c2 :: r2) (by simp at hlen ⊢; omega)]
              rfl
      · have key : scanPhF (f + 1) (c :: r) = .inl [c] :: scanPhF f r := by
          simp [scanPhF, hc]
        rw [key, chunksText_cons, ih r (by simp at hlen ⊢; omega)]
        rfl

theorem scanPh_text (s : Chars) : chunksText (scanPh s) = s :=
  scanPhF_text (s.length + 1) s (Nat.lt_succ_self _)

theorem chunks_all_inl (chunks : List (Chars ⊕ Chars))
    (h : chunks.filterMap chunkParam = []) :
    ∀ ch ∈ chunks, ∃ l, ch = .inl l := by
  induction chunks with
  | nil => intro ch hch; simp at hch
  | cons a rest ih =>
    intro ch hch
    match a with
    | .inl l =>
      rcases List.mem_cons.mp hch with rfl | hch2
      · exact ⟨l, rfl⟩
      · exact ih (by simpa [List.filterMap_cons, chunkParam] using h) ch hch2
    | .inr content =>
      rw [List.filterMap_cons] at h
      simp [chunkParam] at h

theorem lits_match_self (chunks : List (Chars ⊕ Chars))
    (h : ∀ ch ∈ chunks, ∃ l, ch = .inl l) :
    pmatchA true (chunks.map chunkPiece) (chunksText chunks) = some [] := by
  induction chunks with
  | nil => rfl
  | cons a rest ih =>
    obtain ⟨l, rfl⟩ := h a (by simp)
    rw [List.map_cons, chunksText_cons]
    show pmatchA true (.lit l :: rest.map chunkPiece) (l ++ chunksText rest)
      = some []
    rw [pmatchA_lit]
    have hpre : l.isPrefixOf (l ++ chunksText rest) = true :=
      isPrefixOf_append_self l _
    rw [if_pos hpre, List.drop_left]
    exact ih (fun ch hch => h ch (by simp [hch]))

theorem get_fst (d : RouteDict) (url m : Chars) :
    (Router.get d url m).1 =
      (match selExc d url with
       | .error e => .error e
       | .ok rm => afterSel rm.1 rm.2 url m) :=
  rfl

theorem static_route_matches (p : Chars) (hst : (compileUri p).2 = []) :
    pmatchA true (compileUri p).1 p = some [] := by
  have hinl := chunks_all_inl (scanPh p) hst
  have := lits_match_self (scanPh p) hinl
  rwa [scanPh_text] at this

theorem selExc_static (d : RouteDict) (url : Chars) (r : Route)
    (rest : List Route) (hfind : dictFind? d url = some (r :: rest)) :
    selExc d url = .ok (r, r.pattern.matchL url) := by
  simp only [selExc]
  rw [hfind]

theorem mkRoute_matchL (uri : Chars) (ms : List Chars) (h : Nat) (s : Chars) :
    (mkRoute uri ms h).pattern.matchL s = pmatchA true (compileUri uri).1 s :=
  rfl

theorem afterSel_ok_nil (r : Route) (url m : Chars)
    (hm : ¬(r.methods ≠ [] ∧ m ∉ r.methods)) :
    afterSel r (some []) url m = .ok (r.handler, []) := by
  rw [afterSel, if_neg hm]
  show (match extractKw [] r.parameters with
        | none => (Except.error RErr.valueError : Except RErr GetRes)
        | some kw => Except.ok (r.handler, kw)) = Except.ok (r.handler, [])
  rw [extractKw_nil_left]

theorem static_first_ok (d : RouteDict) (p m : Chars) (ms : List Chars)
    (h : Nat) (rest : List Route)
    (hfind : dictFind? d p = some (mkRoute p ms h :: rest))
    (hst : (compileUri p).2 = [])
    (hm : ms = [] ∨ m ∈ ms) :
    (Router.get d p m).1 = .ok (h, []) := by
  rw [get_fst, selExc_static d p _ rest hfind]
  show afterSel (mkRoute p ms h) ((mkRoute p ms h).pattern.matchL p) p m = _
  rw [mkRoute_matchL, static_route_matches p hst]
  rw [afterSel_ok_nil]
  · rfl
  · rintro ⟨hne, hnm⟩
    rcases hm with hm | hm
    · exact hne (by simpa [mkRoute] using hm)
    · exact hnm (by simpa [mkRoute] using hm)

/-! ### Claim theorems -/

/-- C1: on a fresh router with `add("/users/<id:int>", {"GET"}, h)`,
`resolve("/users/7", "GET")` returns the handler with `{id: 7}` where the
value is the numeric integer 7 (not the string `"7"`), and
`resolve("/users/x", "GET")` raises `NotFound` because the `int`
sub-pattern `\d+` rejects non-digit text. -/
theorem claim1_int_param_roundtrip (h : Nat) :
    (Router.get (Router.add [] "/users/<id:int>".data ["GET".data] h)
        "/users/7".data "GET".data).1 = .ok (h, [("id".data, RVal.vint 7)]) ∧
    (Router.get (Router.add [] "/users/<id:int>".data ["GET".data] h)
        "/users/x".data "GET".data).1
      = .error (.notFound (notFoundMsg "/users/x".data)) ∧
    RVal.vint 7 ≠ RVal.vstr "7".data :=
  ⟨rfl, rfl, by decide⟩

/-- C2: whenever route selection picks a route whose pattern matched the
path, but the request method is not in the route's non-empty methods set,
`Router.get` raises the 405 `InvalidUsage` ("method not allowed") error
carrying the attempted method and the path, and not `NotFound`. -/
theorem claim2_method_not_allowed (d : RouteDict) (url m : Chars) (r : Route)
    (gs : List Chars)
    (hsel : selExc d url = .ok (r, some gs))
    (hne : r.methods ≠ [])
    (hnm : m ∉ r.methods) :
    (Router.get d url m).1 = .error (.invalidUsage (methodMsg m url) 405) ∧
    ∀ msg, (Router.get d url m).1 ≠ .error (.notFound msg) := by
  have h1 : (Router.get d url m).1
      = .error (.invalidUsage (methodMsg m url) 405) := by
    rw [get_fst, hsel]
    show afterSel r (some gs) url m = _
    rw [afterSel, if_pos ⟨hne, hnm⟩]
  refine ⟨h1, fun msg hcontra => ?_⟩
  rw [h1] at hcontra
  simp at hcontra

theorem claim2_witness :
    selExc (Router.add [] "/users/<id:int>".data ["GET".data] 1)
        "/users/7".data
      = .ok (mkRoute "/users/<id:int>".data ["GET".data] 1, some ["7".data]) ∧
    (mkRoute "/users/<id:int>".data ["GET".data] 1).methods ≠ [] ∧
    "POST".data ∉ (mkRoute "/users/<id:int>".data ["GET".data] 1).methods ∧
    (Router.get (Router.add [] "/users/<id:int>".data ["GET".data] 1)
        "/users/7".data "POST".data).1
      = .error (.invalidUsage (methodMsg "POST".data "/users/7".data) 405) := by
  have hsel : selExc (Router.add [] "/users/<id:int>".data ["GET".data] 1)
      "/users/7".data
      = .ok (mkRoute "/users/<id:int>".data ["GET".data] 1, some ["7".data]) := by
    decide
  have hne : (mkRoute "/users/<id:int>".data ["GET".data] 1).methods ≠ [] := by
    decide
  have hnm : "POST".data ∉ (mkRoute "/users/<id:int>".data ["GET".data] 1).methods := by
    decide
  exact ⟨hsel, hne, hnm,
    (claim2_method_not_allowed _ _ _ _ _ hsel hne hnm).1⟩

/-- C3 counterexample: the claim fails as stated.  Register a parameterized
route `/x/<i:int>` (its bucket key is `:/:/:`), then a static route at the
path `:/:/:` allowing GET.  Resolving the static path `:/:/:` with GET picks
the first entry of the shared bucket — the parameterized route — whose
pattern does not match, and `match.groups(1)` then raises `AttributeError`
instead of returning the static route's handler with an empty map. -/
theorem claim3_counterexample :
    (Router.get (Router.add (Router.add [] "/x/<i:int>".data [] 7)
        ":/:/:".data ["GET".data] 8) ":/:/:".data "GET".data).1
      = .error .attributeError ∧
    (Router.get (Router.add (Router.add [] "/x/<i:int>".data [] 7)
        ":/:/:".data ["GET".data] 8) ":/:/:".data "GET".data).1
      ≠ .ok (8, []) :=
  ⟨rfl, by decide⟩

/-- C3 amended: for a static path `p` (no placeholders) made of regex-plain
characters (no regex metacharacters, so the source's unescaped paste of `p`
into `^...$` matches `p` verbatim — a metacharacter path such as `/a(b)`
does not match itself and ends in `AttributeError` instead) whose route is
the first entry stored under key `p` in the route table, and any method `m`
the route allows (or any method when the methods set is empty),
`Router.get` returns that route's handler with an empty parameter map. -/
theorem claim3_static_resolves (d : RouteDict) (p m : Chars) (ms : List Chars)
    (h : Nat) (rest : List Route)
    (hplain : regexPlain p = true)
    (hfind : dictFind? d p = some (mkRoute p ms h :: rest))
    (hst : (compileUri p).2 = [])
    (hm : ms = [] ∨ m ∈ ms) :
    (Router.get d p m).1 = .ok (h, []) :=
  static_first_ok d p m ms h rest hfind hst hm

theorem claim3_witness :
    regexPlain "/st".data = true ∧
    dictFind? (Router.add [] "/st".data ["GET".data] 4) "/st".data
      = some (mkRoute "/st".data ["GET".data] 4 :: []) ∧
    (compileUri "/st".data).2 = [] ∧
    (["GET".data] = ([] : List Chars) ∨ "GET".data ∈ ["GET".data]) ∧
    (Router.get (Router.add [] "/st".data ["GET".data] 4) "/st".data
        "GET".data).1 = .ok (4, []) := by
  have hplain : regexPlain "/st".data = true := by decide
  have hfind : dictFind? (Router.add [] "/st".data ["GET".data] 4) "/st".data
      = some (mkRoute "/st".data ["GET".data] 4 :: []) := by decide
  have hst : (compileUri "/st".data).2 = [] := by decide
  have hm : (["GET".data] = ([] : List Chars) ∨ "GET".data ∈ ["GET".data]) := by
    decide
  exact ⟨hplain, hfind, hst, hm,
    claim3_static_resolves _ _ _ _ _ _ hplain hfind hst hm⟩

/-- C4 counterexample: the claim fails as stated.  `url_hash` does not leave
literal segments untouched: the shape key of `/users/<id:int>/posts` is
`:/:/:/:` (every `/`-separated segment becomes the sentinel `:`), not
`/users/:/posts`. -/
theorem claim4_counterexample :
    url_hash "/users/<id:int>/posts".data = ":/:/:/:".data ∧
    url_hash "/users/<id:int>/posts".data ≠ "/users/:/posts".data :=
  ⟨rfl, by decide⟩

/-- C4 amended: the shape key of a template is obtained by splitting it on
`/` and replacing every segment — literal and placeholder alike — by the
sentinel `:`; `/users/<id:int>/posts` maps to `:/:/:/:`, and any two
templates with the same number of `/`-separated segments (in particular two
with the same literal structure but different parameter names or types)
receive the same shape key. -/
theorem claim4_shape_key :
    (∀ u : Chars, url_hash u
      = pyJoin ['/'] (List.replicate (pySplit '/' u).length ([':'] : Chars))) ∧
    url_hash "/users/<id:int>/posts".data = ":/:/:/:".data ∧
    (∀ u v : Chars, (pySplit '/' u).length = (pySplit '/' v).length →
      url_hash u = url_hash v) := by
  have hrep : ∀ u : Chars, url_hash u
      = pyJoin ['/'] (List.replicate (pySplit '/' u).length ([':'] : Chars)) := by
    intro u
    rw [url_hash, List.map_const']
  exact ⟨hrep, rfl, fun u v h => by rw [hrep u, hrep v, h]⟩

theorem claim4_witness :
    (pySplit '/' "/a/<x:int>".data).length
      = (pySplit '/' "/b/<y>".data).length ∧
    url_hash "/a/<x:int>".data = url_hash "/b/<y>".data :=
  ⟨by decide, claim4_shape_key.2.2 _ _ (by decide)⟩

/-- C10: when the same static path is registered twice with different
handlers, resolving that path behaves exactly as if only the first
registration existed — the first route, its handler and its methods set,
are the ones consulted and the second registration is never selected; when
the path is additionally regex-plain (so its unescaped paste into `^...$`
matches it verbatim; a metacharacter path such as `/a(b)` instead ends in
`AttributeError` under both registrations alike) and the method is allowed,
the resolution returns the first handler with an empty parameter map. -/
theorem claim10_first_static_wins (p m : Chars) (ms1 ms2 : List Chars)
    (h1 h2 : Nat) (hst : (compileUri p).2 = []) :
    (Router.get (Router.add (Router.add [] p ms1 h1) p ms2 h2) p m).1
      = (Router.get (Router.add [] p ms1 h1) p m).1 ∧
    (regexPlain p = true → (ms1 = [] ∨ m ∈ ms1) →
      (Router.get (Router.add (Router.add [] p ms1 h1) p ms2 h2) p m).1
        = .ok (h1, [])) := by
  have hd1 : Router.add [] p ms1 h1 = [(p, [mkRoute p ms1 h1])] := by
    simp [Router.add, dictAppend, hst]
  have hd2 : Router.add (Router.add [] p ms1 h1) p ms2 h2
      = [(p, [mkRoute p ms1 h1, mkRoute p ms2 h2])] := by
    rw [hd1]
    simp [Router.add, dictAppend, hst]
  have hfind2 : dictFind? (Router.add (Router.add [] p ms1 h1) p ms2 h2) p
      = some (mkRoute p ms1 h1 :: [mkRoute p ms2 h2]) := by
    rw [hd2]; simp [dictFind?]
  have hfind1 : dictFind? (Router.add [] p ms1 h1) p
      = some (mkRoute p ms1 h1 :: []) := by
    rw [hd1]; simp [dictFind?]
  constructor
  · rw [get_fst, get_fst, selExc_static _ _ _ _ hfind2,
      selExc_static _ _ _ _ hfind1]
  · intro hplain hm
    exact static_first_ok _ _ _ _ _ _ hfind2 hst hm

theorem claim10_witness :
    (compileUri "/dup".data).2 = [] ∧
    regexPlain "/dup".data = true ∧
    ((["GET".data] : List Chars) = [] ∨ "GET".data ∈ ["GET".data]) ∧
    (Router.get (Router.add (Router.add [] "/dup".data ["GET".data] 1)
        "/dup".data ["GET".data] 2) "/dup".data "GET".data).1
      = (Router.get (Router.add [] "/dup".data ["GET".data] 1) "/dup".data
        "GET".data).1 ∧
    (Router.get (Router.add (Router.add [] "/dup".data ["GET".data] 1)
        "/dup".data ["GET".data] 2) "/dup".data "GET".data).1
      = .ok (1, []) := by
  have hst : (compileUri "/dup".data).2 = [] := by decide
  have hplain : regexPlain "/dup".data = true := by decide
  have hm : (["GET".data] : List Chars) = [] ∨ "GET".data ∈ ["GET".data] := by
    decide
  exact ⟨hst, hplain, hm,
    (claim10_first_static_wins "/dup".data "GET".data _ _ 1 2 hst).1,
    (claim10_first_static_wins "/dup".data "GET".data _ _ 1 2 hst).2 hplain hm⟩

theorem scanBucket_cons (r : Route) (rs : List Route) (url : Chars) :
    scanBucket (r :: rs) url
      = (match r.pattern.matchL url with
         | some gs => some (r, gs)
         | none => scanBucket rs url) :=
  rfl

/-- C5: registering two parameterized templates with the same shape key and
then resolving a path in that bucket which both of their matchers accept
selects the first-registered route: the selection is exactly
`(r1, its match)` and the outcome of `Router.get` is computed from the first
route alone. -/
theorem claim5_first_registered_wins (u1 u2 p m : Chars)
    (ms1 ms2 : List Chars) (h1 h2 : Nat) (gs1 gs2 : List Chars)
    (hp1 : (compileUri u1).2 ≠ []) (hp2 : (compileUri u2).2 ≠ [])
    (hhash : url_hash u1 = url_hash u2)
    (hph : url_hash p = url_hash u1)
    (hm1 : (mkRoute u1 ms1 h1).pattern.matchL p = some gs1)
    (hm2 : (mkRoute u2 ms2 h2).pattern.matchL p = some gs2) :
    selExc (Router.add (Router.add [] u1 ms1 h1) u2 ms2 h2) p
      = .ok (mkRoute u1 ms1 h1, some gs1) ∧
    (Router.get (Router.add (Router.add [] u1 ms1 h1) u2 ms2 h2) p m).1
      = afterSel (mkRoute u1 ms1 h1) (some gs1) p m := by
  have he1 : (compileUri u1).2.isEmpty = false := by
    cases hc : (compileUri u1).2 with
    | nil => exact absurd hc hp1
    | cons a l => rfl
  have he2 : (compileUri u2).2.isEmpty = false := by
    cases hc : (compileUri u2).2 with
    | nil => exact absurd hc hp2
    | cons a l => rfl
  have hd2 : Router.add (Router.add [] u1 ms1 h1) u2 ms2 h2
      = [(url_hash u1, [mkRoute u1 ms1 h1, mkRoute u2 ms2 h2])] := by
    simp [Router.add, he1, he2, dictAppend, ← hhash]
  have hselq : selExc (Router.add (Router.add [] u1 ms1 h1) u2 ms2 h2) p
      = .ok (mkRoute u1 ms1 h1, some gs1) := by
    rw [hd2]
    by_cases hps : url_hash u1 = p
    · have hfind : dictFind?
          [(url_hash u1, [mkRoute u1 ms1 h1, mkRoute u2 ms2 h2])] p
          = some (mkRoute u1 ms1 h1 :: [mkRoute u2 ms2 h2]) := by
        simp [dictFind?, hps]
      rw [selExc_static _ _ _ _ hfind, hm1]
    · have hfind : dictFind?
          [(url_hash u1, [mkRoute u1 ms1 h1, mkRoute u2 ms2 h2])] p
          = none := by
        simp [dictFind?, hps]
      have hbucket : dictFind?
          [(url_hash u1, [mkRoute u1 ms1 h1, mkRoute u2 ms2 h2])]
          (url_hash p)
          = some [mkRoute u1 ms1 h1, mkRoute u2 ms2 h2] := by
        rw [hph]; simp [dictFind?]
      simp only [selExc]
      rw [hfind, hbucket]
      show (match scanBucket [mkRoute u1 ms1 h1, mkRoute u2 ms2 h2] p with
            | some rg => (Except.ok (rg.1, some rg.2) :
                Except RErr (Route × Option (List Chars)))
            | none => Except.error (.notFound (notFoundMsg p))) = _
      rw [scanBucket_cons, hm1]
  exact ⟨hselq, by rw [get_fst, hselq]⟩

theorem claim5_witness :
    (compileUri "/p/<a:int>".data).2 ≠ [] ∧
    (compileUri "/p/<b:int>".data).2 ≠ [] ∧
    url_hash "/p/<a:int>".data = url_hash "/p/<b:int>".data ∧
    url_hash "/p/5".data = url_hash "/p/<a:int>".data ∧
    (mkRoute "/p/<a:int>".data [] 1).pattern.matchL "/p/5".data
      = some ["5".data] ∧
    (mkRoute "/p/<b:int>".data [] 2).pattern.matchL "/p/5".data
      = some ["5".data] ∧
    selExc (Router.add (Router.add [] "/p/<a:int>".data [] 1)
        "/p/<b:int>".data [] 2) "/p/5".data
      = .ok (mkRoute "/p/<a:int>".data [] 1, some ["5".data]) ∧
    (Router.get (Router.add (Router.add [] "/p/<a:int>".data [] 1)
        "/p/<b:int>".data [] 2) "/p/5".data "GET".data).1
      = .ok (1, [("a".data, RVal.vint 5)]) := by
  have hp1 : (compileUri "/p/<a:int>".data).2 ≠ [] := by decide
  have hp2 : (compileUri "/p/<b:int>".data).2 ≠ [] := by decide
  have hh : url_hash "/p/<a:int>".data = url_hash "/p/<b:int>".data := by
    decide
  have hph : url_hash "/p/5".data = url_hash "/p/<a:int>".data := by decide
  have hm1 : (mkRoute "/p/<a:int>".data [] 1).pattern.matchL "/p/5".data
      = some ["5".data] := by decide
  have hm2 : (mkRoute "/p/<b:int>".data [] 2).pattern.matchL "/p/5".data
      = some ["5".data] := by decide
  refine ⟨hp1, hp2, hh, hph, hm1, hm2,
    (claim5_first_registered_wins _ _ _ "GET".data _ _ 1 2 _ _
      hp1 hp2 hh hph hm1 hm2).1, ?_⟩
  rw [(claim5_first_registered_wins _ _ _ "GET".data _ _ 1 2 _ _
    hp1 hp2 hh hph hm1 hm2).2]
  decide

theorem splitFirstColon_append (name tok : Chars) (h : ':' ∉ name) :
    splitFirstColon (name ++ ':' :: tok) = some (name, tok) := by
  induction name with
  | nil => simp [splitFirstColon]
  | cons c cs ih =>
    have hc : ¬(c = ':') := fun hcc => h (by rw [hcc]; exact List.mem_cons_self _ _)
    have hcs : ':' ∉ cs := fun hmem => h (List.mem_cons_of_mem _ hmem)
    simp [splitFirstColon, hc, ih hcs]

/-- C6: a placeholder `<name:tok>` whose type token is unknown to
`REGEX_TYPES` compiles without error: the token itself becomes the literal
capturing sub-pattern and the recorded cast is the identity string cast;
such a group captures exactly the token text, extraction returns it as a
string value, and a concrete end-to-end resolution of `/v/<p:foo>` against
`/v/foo` yields the handler with `{p: "foo"}`. -/
theorem claim6_unknown_token_literal (name tok : Chars)
    (hcol : ':' ∉ name)
    (hunk : REGEX_TYPES tok = none)
    (hplain : regexPlain tok = true) :
    add_parameter (name ++ ':' :: tok)
      = (.grp (.litPat tok), ⟨name, .toStr⟩) ∧
    (∀ v : Chars, castVal .toStr v = some (.vstr v)) ∧
    pmatchA true [Piece.grp (.litPat tok)] tok = some [tok] ∧
    extractKw [tok] [⟨name, .toStr⟩] = some [(name, .vstr tok)] ∧
    (Router.get (Router.add [] "/v/<p:foo>".data [] 3) "/v/foo".data
        "GET".data).1 = .ok (3, [("p".data, RVal.vstr "foo".data)]) := by
  refine ⟨?_, fun v => rfl, ?_, rfl, rfl⟩
  · rw [add_parameter, splitFirstColon_append name tok hcol]
    show (match REGEX_TYPES tok with
          | some cg => (Piece.grp cg.2, (⟨name, cg.1⟩ : Parameter))
          | none => (Piece.grp (.litPat tok), ⟨name, .toStr⟩)) = _
    rw [hunk]
  · rw [pmatchA_litPat]
    have hpre : tok.isPrefixOf tok = true := by
      simpa using isPrefixOf_append_self tok []
    rw [if_pos hpre, List.drop_length]
    rfl

theorem claim6_witness :
    (':' ∉ ("p".data : Chars)) ∧
    REGEX_TYPES "foo".data = none ∧
    regexPlain "foo".data = true ∧
    add_parameter ("p".data ++ ':' :: "foo".data)
      = (.grp (.litPat "foo".data), ⟨"p".data, .toStr⟩) := by
  have hcol : ':' ∉ ("p".data : Chars) := by decide
  have hunk : REGEX_TYPES "foo".data = none := by decide
  have hplain : regexPlain "foo".data = true := by decide
  exact ⟨hcol, hunk, hplain,
    (claim6_unknown_token_literal "p".data "foo".data hcol hunk hplain).1⟩

/-- C8: if selection picked a route whose pattern matched, the method check
passes, and casting one of the captured values fails (as `float()` does on
`1.2.3`, which the `number` sub-pattern accepts), then `Router.get` raises
the cast error — the resolution never returns a handler with a defaulted or
coerced value. -/
theorem claim8_cast_failure_fail_fast (d : RouteDict) (url m : Chars)
    (r : Route) (gs : List Chars)
    (hsel : selExc d url = .ok (r, some gs))
    (hm : ¬(r.methods ≠ [] ∧ m ∉ r.methods))
    (hcast : extractKw gs r.parameters = none) :
    (Router.get d url m).1 = .error .valueError ∧
    ∀ res : GetRes, (Router.get d url m).1 ≠ .ok res := by
  have h1 : (Router.get d url m).1 = .error .valueError := by
    rw [get_fst, hsel]
    show afterSel r (some gs) url m = _
    rw [afterSel, if_neg hm]
    show (match extractKw gs r.parameters with
          | none => (Except.error RErr.valueError : Except RErr GetRes)
          | some kw => Except.ok (r.handler, kw)) = _
    rw [hcast]
  refine ⟨h1, fun res hc => ?_⟩
  rw [h1] at hc
  simp at hc

theorem claim8_witness :
    selExc (Router.add [] "/n/<x:number>".data [] 5) "/n/1.2.3".data
      = .ok (mkRoute "/n/<x:number>".data [] 5, some ["1.2.3".data]) ∧
    ¬((mkRoute "/n/<x:number>".data [] 5).methods ≠ [] ∧
      "GET".data ∉ (mkRoute "/n/<x:number>".data [] 5).methods) ∧
    extractKw ["1.2.3".data] (mkRoute "/n/<x:number>".data [] 5).parameters
      = none ∧
    (Router.get (Router.add [] "/n/<x:number>".data [] 5) "/n/1.2.3".data
        "GET".data).1 = .error .valueError := by
  have hsel : selExc (Router.add [] "/n/<x:number>".data [] 5)
      "/n/1.2.3".data
      = .ok (mkRoute "/n/<x:number>".data [] 5, some ["1.2.3".data]) := by
    decide
  have hm : ¬((mkRoute "/n/<x:number>".data [] 5).methods ≠ [] ∧
      "GET".data ∉ (mkRoute "/n/<x:number>".data [] 5).methods) := by decide
  have hcast : extractKw ["1.2.3".data]
      (mkRoute "/n/<x:number>".data [] 5).parameters = none := by decide
  exact ⟨hsel, hm, hcast,
    (claim8_cast_failure_fail_fast _ _ _ _ _ hsel hm hcast).1⟩

theorem reassemble_grpCls (g : GSpec) (hg : ∀ l, g ≠ .litPat l)
    (ps : List Piece) (x : Chars) (gs2 : List Chars) :
    reassemble (.grp g :: ps) (x :: gs2)
      = (if x ≠ [] ∧ x.all (GSpec.accepts g) then
          (reassemble ps gs2).map (fun t => x ++ t)
        else none) := by
  cases g with
  | litPat l => exact absurd rfl (hg l)
  | digits => rfl
  | nonSlash => rfl
  | numChars => rfl
  | alphaChars => rfl

theorem cls_sound (g : GSpec) (hg : ∀ l, g ≠ .litPat l) (ps : List Piece)
    (ih : ∀ (s : Chars) (gs : List Chars),
      pmatchA true ps s = some gs →
        ∃ s0, reassemble ps gs = some s0 ∧ (s = s0 ∨ s = s0 ++ ['\n']))
    (s : Chars) (gs : List Chars)
    (h : pmatchA true (.grp g :: ps) s = some gs) :
    ∃ s0, reassemble (.grp g :: ps) gs = some s0 ∧
      (s = s0 ∨ s = s0 ++ ['\n']) := by
  rw [pmatchA_grpCls true g ps s hg] at h
  obtain ⟨k, hkmem, hk⟩ := List.exists_of_findSome?_eq_some h
  rw [List.mem_reverse, List.mem_range'_1] at hkmem
  obtain ⟨hk1, hk2⟩ := hkmem
  obtain ⟨gs2, hgs2, rfl⟩ := Option.map_eq_some'.mp hk
  obtain ⟨t0, hre, hdt⟩ := ih (s.drop k) gs2 hgs2
  have hklen : k ≤ (s.takeWhile (GSpec.accepts g)).length := by omega
  have hle : k ≤ s.length :=
    le_trans hklen (takeWhile_length_le (GSpec.accepts g) s)
  have htake : s.take k = (s.takeWhile (GSpec.accepts g)).take k := by
    conv_lhs => rw [← List.takeWhile_append_dropWhile (GSpec.accepts g) s]
    exact List.take_append_of_le_length hklen
  have hne : s.take k ≠ [] := by
    intro hcon
    have hlen0 : (s.take k).length = 0 := by rw [hcon]; rfl
    rw [List.length_take] at hlen0
    rw [Nat.min_def] at hlen0
    split at hlen0 <;> omega
  have hall : (s.take k).all (GSpec.accepts g) = true := by
    rw [htake, List.all_eq_true]
    intro x hx
    exact List.mem_takeWhile_imp (List.mem_of_mem_take hx)
  refine ⟨s.take k ++ t0, ?_, ?_⟩
  · rw [reassemble_grpCls g hg, if_pos ⟨hne, hall⟩, hre]
    rfl
  · rcases hdt with hdt | hdt
    · left
      rw [← hdt]
      exact (List.take_append_drop k s).symm
    · right
      rw [List.append_assoc, ← hdt]
      exact (List.take_append_drop k s).symm

theorem pmatch_sound (ps : List Piece) :
    ∀ (s : Chars) (gs : List Chars),
      pmatchA true ps s = some gs →
        ∃ s0, reassemble ps gs = some s0 ∧ (s = s0 ∨ s = s0 ++ ['\n']) := by
  induction ps with
  | nil =>
    intro s gs h
    rw [pmatchA_nil] at h
    by_cases hs : s = [] ∨ s = ['\n']
    · rw [if_pos rfl, if_pos hs] at h
      obtain rfl : ([] : List Chars) = gs := by simpa using h
      refine ⟨[], rfl, ?_⟩
      rcases hs with hs | hs
      · exact .inl hs
      · exact .inr (by simpa using hs)
    · rw [if_pos rfl, if_neg hs] at h
      exact absurd h (by simp)
  | cons pc ps ih =>
    intro s gs h
    match pc with
    | .lit l =>
      rw [pmatchA_lit] at h
      by_cases hpre : l.isPrefixOf s
      · rw [if_pos hpre] at h
        have hs := eq_append_of_isPrefixOf l s hpre
        obtain ⟨t0, hre, hdt⟩ := ih (s.drop l.length) gs h
        refine ⟨l ++ t0, ?_, ?_⟩
        · show (reassemble ps gs).map (fun t2 => l ++ t2) = some (l ++ t0)
          rw [hre]
          rfl
        · rcases hdt with hdt | hdt
          · left
            rw [hs, hdt]
          · right
            rw [List.append_assoc, ← hdt]
            exact hs
      · rw [if_neg hpre] at h
        exact absurd h (by simp)
    | .grp (.litPat l) =>
      rw [pmatchA_litPat] at h
      by_cases hpre : l.isPrefixOf s
      · rw [if_pos hpre] at h
        have hs := eq_append_of_isPrefixOf l s hpre
        obtain ⟨gs2, hgs2, rfl⟩ := Option.map_eq_some'.mp h
        obtain ⟨t0, hre, hdt⟩ := ih (s.drop l.length) gs2 hgs2
        refine ⟨l ++ t0, ?_, ?_⟩
        · show (if l = l then (reassemble ps gs2).map (fun t2 => l ++ t2)
                else none) = some (l ++ t0)
          rw [if_pos rfl, hre]
          rfl
        · rcases hdt with hdt | hdt
          · left
            rw [hs, hdt]
          · right
            rw [List.append_assoc, ← hdt]
            exact hs
      · rw [if_neg hpre] at h
        exact absurd h (by simp)
    | .grp .digits =>
      exact cls_sound _ (fun l hl => GSpec.noConfusion hl) ps ih s gs h
    | .grp .nonSlash =>
      exact cls_sound _ (fun l hl => GSpec.noConfusion hl) ps ih s gs h
    | .grp .numChars =>
      exact cls_sound _ (fun l hl => GSpec.noConfusion hl) ps ih s gs h
    | .grp .alphaChars =>
      exact cls_sound _ (fun l hl => GSpec.noConfusion hl) ps ih s gs h

/-- C7 counterexample: the claim fails as stated.  Python `$` also matches
just before a trailing newline, so the compiled `^/x/(\d+)$` of
`/x/<i:int>` matches `/x/7\n` while consuming only the proper prefix
`/x/7` (the reassembled match text differs from the path), and the router
selects that route and resolves `/x/7\n` successfully. -/
theorem claim7_counterexample :
    pmatchA true (compileUri "/x/<i:int>".data).1 "/x/7\n".data
      = some ["7".data] ∧
    reassemble (compileUri "/x/<i:int>".data).1 ["7".data]
      = some "/x/7".data ∧
    ("/x/7".data : Chars) ≠ "/x/7\n".data ∧
    (Router.get (Router.add [] "/x/<i:int>".data [] 7) "/x/7\n".data
        "GET".data).1 = .ok (7, [("i".data, RVal.vint 7)]) :=
  ⟨rfl, rfl, by decide, rfl⟩

/-- C7 amended: every compiled route pattern carries the end anchor written
by `re.compile(r'^{}$'.format(...))`, and an anchored match decomposes into
the pattern's literal chunks and captures either the entire path or the
entire path up to one trailing newline (Python `$` matches at the end of
the string or just before a final newline); `/a` and `/a/` remain distinct:
a router with only `/a` registered raises `NotFound` for `/a/` and vice
versa, while the exact path still resolves. -/
theorem claim7_anchored_both_ends :
    (∀ (uri : Chars) (ms : List Chars) (h : Nat),
      (mkRoute uri ms h).pattern.endAnchor = true) ∧
    (∀ (ps : List Piece) (s : Chars) (gs : List Chars),
      pmatchA true ps s = some gs →
        ∃ s0, reassemble ps gs = some s0 ∧ (s = s0 ∨ s = s0 ++ ['\n'])) ∧
    (Router.get (Router.add [] "/a".data ["GET".data] 1) "/a/".data
        "GET".data).1 = .error (.notFound (notFoundMsg "/a/".data)) ∧
    (Router.get (Router.add [] "/a/".data ["GET".data] 2) "/a".data
        "GET".data).1 = .error (.notFound (notFoundMsg "/a".data)) ∧
    (Router.get (Router.add [] "/a".data ["GET".data] 1) "/a".data
        "GET".data).1 = .ok (1, []) :=
  ⟨fun _ _ _ => rfl, fun ps s gs h => pmatch_sound ps s gs h, rfl, rfl, rfl⟩

theorem claim7_witness :
    pmatchA true [Piece.lit "/a".data] "/a".data = some [] ∧
    (∃ s0, reassemble [Piece.lit "/a".data] [] = some s0 ∧
      (("/a".data : Chars) = s0 ∨ "/a".data = s0 ++ ['\n'])) := by
  have hm : pmatchA true [Piece.lit "/a".data] "/a".data = some [] := by
    decide
  exact ⟨hm, claim7_anchored_both_ends.2.1 [Piece.lit "/a".data] "/a".data [] hm⟩

theorem dictFind?_append_left (d0 ext : RouteDict) (k : Chars)
    (v : List Route) (h : dictFind? d0 k = some v) :
    dictFind? (d0 ++ ext) k = some v := by
  induction d0 with
  | nil => simp [dictFind?] at h
  | cons e rest ih =>
    rw [List.cons_append]
    by_cases he : e.1 = k
    · simp only [dictFind?, if_pos he] at h ⊢
      exact h
    · simp only [dictFind?, if_neg he] at h ⊢
      exact ih h

theorem dictFind?_append_right (d0 ext : RouteDict) (k : Chars)
    (h : dictFind? d0 k = none) :
    dictFind? (d0 ++ ext) k = dictFind? ext k := by
  induction d0 with
  | nil => rfl
  | cons e rest ih =>
    rw [List.cons_append]
    by_cases he : e.1 = k
    · simp only [dictFind?, if_pos he] at h
      simp at h
    · simp only [dictFind?, if_neg he] at h ⊢
      exact ih h

theorem dictFind?_mem (l : RouteDict) (k : Chars) (v : List Route)
    (h : dictFind? l k = some v) : (k, v) ∈ l := by
  induction l with
  | nil => simp [dictFind?] at h
  | cons e rest ih =>
    by_cases he : e.1 = k
    · simp only [dictFind?, if_pos he] at h
      obtain ⟨a, b⟩ := e
      obtain rfl : b = v := by simpa using h
      obtain rfl : a = k := he
      exact List.mem_cons_self _ _
    · simp only [dictFind?, if_neg he] at h
      exact List.mem_cons_of_mem _ (ih h)

theorem ext_lookup_empty (d0 ext : RouteDict)
    (hok : ∀ e ∈ ext, extOk d0 e) (k : Chars) (v : List Route)
    (h : dictFind? ext k = some v) : v = [] := by
  have hmem := dictFind?_mem ext k v h
  exact (hok (k, v) hmem).1

theorem selExc_empty_bucket (d : RouteDict) (url : Chars)
    (h : dictFind? d url = some []) : selExc d url = .error .indexError := by
  simp only [selExc]
  rw [h]

theorem get_ext_agree (d0 ext : RouteDict)
    (hok : ∀ e ∈ ext, extOk d0 e) (url m : Chars) :
    (Router.get (d0 ++ ext) url m).1 = (Router.get d0 url m).1 ∨
    (Router.get (d0 ++ ext) url m).1 = .error .indexError := by
  cases hf0 : dictFind? d0 url with
  | some l =>
    have hf : dictFind? (d0 ++ ext) url = some l :=
      dictFind?_append_left d0 ext url l hf0
    cases l with
    | nil =>
      right
      rw [get_fst, selExc_empty_bucket _ _ hf]
    | cons r rest =>
      left
      rw [get_fst, get_fst, selExc_static _ _ _ _ hf,
        selExc_static _ _ _ _ hf0]
  | none =>
    have hf : dictFind? (d0 ++ ext) url = dictFind? ext url :=
      dictFind?_append_right d0 ext url hf0
    cases hfe : dictFind? ext url with
    | some v =>
      right
      have hv : v = [] := ext_lookup_empty d0 ext hok url v hfe
      rw [get_fst, selExc_empty_bucket _ _ (by rw [hf, hfe, hv])]
    | none =>
      left
      have hfd : dictFind? (d0 ++ ext) url = none := by rw [hf, hfe]
      have hbucket : (dictFind? (d0 ++ ext) (url_hash url)).getD []
          = (dictFind? d0 (url_hash url)).getD [] := by
        cases hb0 : dictFind? d0 (url_hash url) with
        | some bl => rw [dictFind?_append_left d0 ext _ bl hb0]
        | none =>
          rw [dictFind?_append_right d0 ext _ hb0]
          cases hbe : dictFind? ext (url_hash url) with
          | some bv => rw [ext_lookup_empty d0 ext hok _ bv hbe]; rfl
          | none => rfl
      rw [get_fst, get_fst]
      simp only [selExc]
      rw [hfd, hf0, hbucket]

theorem get_fst_ext (d0 d : RouteDict) (hext : RoutesExt d0 d)
    (url m : Chars) (v : GetRes)
    (h : (Router.get d url m).1 = .ok v) :
    (Router.get d0 url m).1 = .ok v := by
  obtain ⟨ext, rfl, hok⟩ := hext
  rcases get_ext_agree d0 ext hok url m with hagree | herr
  · rw [← hagree]; exact h
  · rw [herr] at h; simp at h

theorem dictInsertEmpty_found (d : RouteDict) (k : Chars) (v : List Route)
    (h : dictFind? d k = some v) : dictInsertEmpty d k = d := by
  induction d with
  | nil => simp [dictFind?] at h
  | cons e rest ih =>
    by_cases he : e.1 = k
    · simp [dictInsertEmpty, he]
    · simp only [dictFind?, if_neg he] at h
      simp [dictInsertEmpty, he, ih h]

theorem dictInsertEmpty_missing (d : RouteDict) (k : Chars)
    (h : dictFind? d k = none) : dictInsertEmpty d k = d ++ [(k, [])] := by
  induction d with
  | nil => rfl
  | cons e rest ih =>
    by_cases he : e.1 = k
    · simp only [dictFind?, if_pos he] at h
      simp at h
    · simp only [dictFind?, if_neg he] at h
      simp [dictInsertEmpty, he, ih h]

theorem pySplit_ne_nil (sep : Char) (s : Chars) : pySplit sep s ≠ [] := by
  cases s with
  | nil => simp [pySplit]
  | cons c rest =>
    simp only [pySplit]
    cases pySplit sep rest with
    | nil => simp
    | cons a l =>
      by_cases hc : c = sep
      · simp [hc]
      · simp [hc]

theorem url_hash_replicate (u : Chars) :
    url_hash u
      = pyJoin ['/'] (List.replicate (pySplit '/' u).length ([':'] : Chars)) := by
  rw [url_hash, List.map_const']

theorem pySplit_pyJoin_colon : ∀ n : Nat,
    pySplit '/' (pyJoin ['/'] (List.replicate (n + 1) ([':'] : Chars)))
      = List.replicate (n + 1) ([':'] : Chars) := by
  intro n
  induction n with
  | zero => rfl
  | succ n ih =>
    rw [show List.replicate (n + 2) ([':'] : Chars)
        = [':'] :: [':'] :: List.replicate n ([':'] : Chars) by
      simp [List.replicate_succ]]
    rw [show pyJoin ['/'] ([':'] :: [':'] :: List.replicate n ([':'] : Chars))
        = [':'] ++ ['/'] ++ pyJoin ['/'] ([':'] :: List.replicate n ([':'] : Chars))
        from rfl]
    rw [show ([':'] : Chars) :: List.replicate n ([':'] : Chars)
        = List.replicate (n + 1) ([':'] : Chars) by simp [List.replicate_succ]]
    have hstep : ((([':'] : Chars) ++ ['/'])
          ++ pyJoin ['/'] (List.replicate (n + 1) ([':'] : Chars)))
        = ':' :: '/' :: pyJoin ['/'] (List.replicate (n + 1) ([':'] : Chars)) := rfl
    rw [hstep]
    simp only [pySplit]
    rw [ih]
    cases hsp : List.replicate (n + 1) ([':'] : Chars) with
    | nil => exact absurd hsp (by simp)
    | cons a l =>
      simp

theorem url_hash_idem (u : Chars) : url_hash (url_hash u) = url_hash u := by
  obtain ⟨n, hn⟩ : ∃ n, (pySplit '/' u).length = n + 1 := by
    cases hsp : pySplit '/' u with
    | nil => exact absurd hsp (pySplit_ne_nil '/' u)
    | cons a l => exact ⟨l.length, by simp⟩
  rw [url_hash_replicate u, hn]
  rw [url_hash_replicate (pyJoin ['/'] (List.replicate (n + 1) ([':'] : Chars)))]
  rw [pySplit_pyJoin_colon n]
  simp

theorem get_routes_ext (d0 d : RouteDict) (hext : RoutesExt d0 d)
    (url m : Chars) : RoutesExt d0 (Router.get d url m).2 := by
  have hsnd : (Router.get d url m).2
      = (match dictFind? d url with
         | some _ => d
         | none => dictInsertEmpty d (url_hash url)) := rfl
  rw [hsnd]
  cases hf : dictFind? d url with
  | some l => exact hext
  | none =>
    show RoutesExt d0 (dictInsertEmpty d (url_hash url))
    cases hb : dictFind? d (url_hash url) with
    | some v => rw [dictInsertEmpty_found d _ v hb]; exact hext
    | none =>
      rw [dictInsertEmpty_missing d _ hb]
      obtain ⟨ext, rfl, hok⟩ := hext
      refine ⟨ext ++ [(url_hash url, [])], by rw [List.append_assoc], ?_⟩
      intro e he
      rcases List.mem_append.mp he with he2 | he2
      · exact hok e he2
      · have : e = (url_hash url, []) := by simpa using he2
        subst this
        refine ⟨rfl, ?_, url_hash_idem url⟩
        cases hb0 : dictFind? d0 (url_hash url) with
        | some bv =>
          exact absurd (dictFind?_append_left d0 ext _ bv hb0) (by rw [hb]; simp)
        | none => rfl

theorem cacheFind_mem (c : List (Nat × GetRes)) (rid : Nat) (v : GetRes)
    (h : cacheFind c rid = some v) : (rid, v) ∈ c := by
  induction c with
  | nil => simp [cacheFind] at h
  | cons e rest ih =>
    by_cases he : e.1 = rid
    · simp only [cacheFind, if_pos he] at h
      obtain ⟨a, b⟩ := e
      obtain rfl : b = v := by simpa using h
      obtain rfl : a = rid := he
      exact List.mem_cons_self _ _
    · simp only [cacheFind, if_neg he] at h
      exact List.mem_cons_of_mem _ (ih h)

theorem cacheOkP_mono (d0 : RouteDict) (P Q : Request → Prop)
    (hpq : ∀ r, P r → Q r) (c : List (Nat × GetRes))
    (h : CacheOkP d0 P c) : CacheOkP d0 Q c := by
  intro e he
  obtain ⟨r, hP, hrid, hok⟩ := h e he
  exact ⟨r, hpq r hP, hrid, hok⟩

theorem step_inv (d0 : RouteDict) (P : Request → Prop) (st : RouterState)
    (req : Request)
    (hr : RoutesExt d0 st.routes) (hc : CacheOkP d0 P st.cache) :
    RoutesExt d0 ((Router.getCached st req).2).routes ∧
    CacheOkP d0 (fun r => r = req ∨ P r)
      ((Router.getCached st req).2).cache := by
  cases hf : cacheFind st.cache req.rid with
  | some v =>
    have hstate : (Router.getCached st req).2
        = { st with cache := (req.rid, v)
            :: st.cache.filter (fun e => e.1 ≠ req.rid) } := by
      simp only [Router.getCached, hf]
    rw [hstate]
    refine ⟨hr, ?_⟩
    intro e he
    rcases List.mem_cons.mp he with rfl | he2
    · obtain ⟨r, hP, hrid, hok⟩ := hc _ (cacheFind_mem _ _ _ hf)
      exact ⟨r, .inr hP, hrid, hok⟩
    · obtain ⟨r, hP, hrid, hok⟩ := hc _ (List.mem_of_mem_filter he2)
      exact ⟨r, .inr hP, hrid, hok⟩
  | none =>
    cases hres : (Router.get st.routes req.url req.method).1 with
    | ok v =>
      have hstate : (Router.getCached st req).2
          = { routes := (Router.get st.routes req.url req.method).2,
              cache := ((req.rid, v) :: st.cache).take st.cap,
              cap := st.cap } := by
        simp only [Router.getCached, hf, hres]
      rw [hstate]
      refine ⟨get_routes_ext d0 st.routes hr req.url req.method, ?_⟩
      intro e he
      have he2 := List.mem_of_mem_take he
      rcases List.mem_cons.mp he2 with rfl | he3
      · exact ⟨req, .inl rfl, rfl,
          get_fst_ext d0 st.routes hr req.url req.method v hres⟩
      · obtain ⟨r, hP, hrid, hok⟩ := hc _ he3
        exact ⟨r, .inr hP, hrid, hok⟩
    | error err =>
      have hstate : (Router.getCached st req).2
          = { st with routes := (Router.get st.routes req.url req.method).2 } := by
        simp only [Router.getCached, hf, hres]
      rw [hstate]
      refine ⟨get_routes_ext d0 st.routes hr req.url req.method, ?_⟩
      exact cacheOkP_mono d0 P _ (fun r hP => .inr hP) st.cache hc

theorem step_ok (d0 : RouteDict) (P : Request → Prop) (st : RouterState)
    (req : Request) (v : GetRes)
    (hr : RoutesExt d0 st.routes) (hc : CacheOkP d0 P st.cache)
    (hcons : ∀ r, P r → r.rid = req.rid → r = req)
    (h : (Router.getCached st req).1 = .ok v) :
    (Router.get d0 req.url req.method).1 = .ok v := by
  cases hf : cacheFind st.cache req.rid with
  | some v0 =>
    have hfst : (Router.getCached st req).1 = .ok v0 := by
      simp only [Router.getCached, hf]
    rw [hfst] at h
    obtain rfl : v0 = v := by simpa using h
    obtain ⟨r, hP, hrid, hok⟩ := hc _ (cacheFind_mem _ _ _ hf)
    have hreq : r = req := hcons r hP hrid
    rw [← hreq]
    exact hok
  | none =>
    cases hres : (Router.get st.routes req.url req.method).1 with
    | ok v0 =>
      have hfst : (Router.getCached st req).1 = .ok v0 := by
        simp only [Router.getCached, hf, hres]
      rw [hfst] at h
      obtain rfl : v0 = v := by simpa using h
      exact get_fst_ext d0 st.routes hr req.url req.method _ hres
    | error err =>
      have hfst : (Router.getCached st req).1 = .error err := by
        simp only [Router.getCached, hf, hres]
      rw [hfst] at h
      simp at h

theorem run_inv (d0 : RouteDict) : ∀ (rs : List Request)
    (P : Request → Prop) (st : RouterState),
    RoutesExt d0 st.routes → CacheOkP d0 P st.cache →
    RoutesExt d0 (runReqs st rs).routes ∧
    CacheOkP d0 (fun r => r ∈ rs ∨ P r) (runReqs st rs).cache := by
  intro rs
  induction rs with
  | nil =>
    intro P st hr hc
    exact ⟨hr, cacheOkP_mono d0 P _ (fun r hP => .inr hP) st.cache hc⟩
  | cons r0 rs ih =>
    intro P st hr hc
    obtain ⟨hr2, hc2⟩ := step_inv d0 P st r0 hr hc
    obtain ⟨hr3, hc3⟩ := ih (fun r => r = r0 ∨ P r) _ hr2 hc2
    refine ⟨hr3, cacheOkP_mono d0 _ _ ?_ _ hc3⟩
    intro r hcase
    rcases hcase with hmem | hr0 | hP
    · exact .inl (List.mem_cons_of_mem _ hmem)
    · exact .inl (hr0 ▸ List.mem_cons_self _ _)
    · exact .inr hP

theorem run_ok (d0 : RouteDict) (cap : Nat) (rs : List Request)
    (req : Request) (v : GetRes)
    (hcons : ∀ r1 ∈ req :: rs, ∀ r2 ∈ req :: rs, r1.rid = r2.rid → r1 = r2)
    (h : (Router.getCached (runReqs ⟨d0, [], cap⟩ rs) req).1 = .ok v) :
    (Router.get d0 req.url req.method).1 = .ok v := by
  have hinit_r : RoutesExt d0 (⟨d0, [], cap⟩ : RouterState).routes :=
    ⟨[], by simp, by simp⟩
  have hinit_c : CacheOkP d0 (fun _ => False)
      (⟨d0, [], cap⟩ : RouterState).cache :=
    fun e he => absurd he (List.not_mem_nil e)
  obtain ⟨hr, hc⟩ := run_inv d0 rs _ _ hinit_r hinit_c
  refine step_ok d0 _ _ req v hr hc ?_ h
  intro r hP hrid
  rcases hP with hmem | hF
  · exact hcons r (List.mem_cons_of_mem _ hmem) req (List.mem_cons_self _ _)
      hrid
  · exact absurd hF (fun x => x)

/-- C9: for a fixed registered route table, any two successful resolutions
of the same (path, method) pair — in any two request histories, whether
served from the `lru_cache` or recomputed, and regardless of the
`defaultdict` buckets that earlier misses inserted — return the result of
the pure resolution against the registered table, hence an identical
handler and an identical parameter map.  Request sequences are constrained
to be identity-consistent (two request objects with the same identity are
the same object), as in Python. -/
theorem claim9_cache_coherence (d0 : RouteDict) (cap1 cap2 : Nat)
    (rs1 rs2 : List Request) (req1 req2 : Request) (v1 v2 : GetRes)
    (hcons1 : ∀ r1 ∈ req1 :: rs1, ∀ r2 ∈ req1 :: rs1, r1.rid = r2.rid → r1 = r2)
    (hcons2 : ∀ r1 ∈ req2 :: rs2, ∀ r2 ∈ req2 :: rs2, r1.rid = r2.rid → r1 = r2)
    (hurl : req1.url = req2.url) (hmeth : req1.method = req2.method)
    (h1 : (Router.getCached (runReqs ⟨d0, [], cap1⟩ rs1) req1).1 = .ok v1)
    (h2 : (Router.getCached (runReqs ⟨d0, [], cap2⟩ rs2) req2).1 = .ok v2) :
    (Router.get d0 req1.url req1.method).1 = .ok v1 ∧ v1 = v2 := by
  have g1 := run_ok d0 cap1 rs1 req1 v1 hcons1 h1
  have g2 := run_ok d0 cap2 rs2 req2 v2 hcons2 h2
  rw [← hurl, ← hmeth] at g2
  refine ⟨g1, ?_⟩
  have := g1.symm.trans g2
  simpa using this

theorem claim9_witness :
    (∀ r1 ∈ [(⟨0, "/users/7".data, "GET".data⟩ : Request)],
      ∀ r2 ∈ [(⟨0, "/users/7".data, "GET".data⟩ : Request)],
        r1.rid = r2.rid → r1 = r2) ∧
    (∀ r1 ∈ [(⟨1, "/users/7".data, "GET".data⟩ : Request),
        (⟨1, "/users/7".data, "GET".data⟩ : Request)],
      ∀ r2 ∈ [(⟨1, "/users/7".data, "GET".data⟩ : Request),
        (⟨1, "/users/7".data, "GET".data⟩ : Request)],
        r1.rid = r2.rid → r1 = r2) ∧
    (Router.getCached
        (runReqs ⟨Router.add [] "/users/<id:int>".data ["GET".data] 1, [], 5⟩ [])
        ⟨0, "/users/7".data, "GET".data⟩).1
      = .ok (1, [("id".data, RVal.vint 7)]) ∧
    (Router.getCached
        (runReqs ⟨Router.add [] "/users/<id:int>".data ["GET".data] 1, [], 5⟩
          [⟨1, "/users/7".data, "GET".data⟩])
        ⟨1, "/users/7".data, "GET".data⟩).1
      = .ok (1, [("id".data, RVal.vint 7)]) ∧
    (Router.get (Router.add [] "/users/<id:int>".data ["GET".data] 1)
        "/users/7".data "GET".data).1 = .ok (1, [("id".data, RVal.vint 7)]) := by
  have hcons1 : ∀ r1 ∈ [(⟨0, "/users/7".data, "GET".data⟩ : Request)],
      ∀ r2 ∈ [(⟨0, "/users/7".data, "GET".data⟩ : Request)],
        r1.rid = r2.rid → r1 = r2 := by decide
  have hcons2 : ∀ r1 ∈ [(⟨1, "/users/7".data, "GET".data⟩ : Request),
        (⟨1, "/users/7".data, "GET".data⟩ : Request)],
      ∀ r2 ∈ [(⟨1, "/users/7".data, "GET".data⟩ : Request),
        (⟨1, "/users/7".data, "GET".data⟩ : Request)],
        r1.rid = r2.rid → r1 = r2 := by decide
  have h1 : (Router.getCached
      (runReqs ⟨Router.add [] "/users/<id:int>".data ["GET".data] 1, [], 5⟩ [])
      ⟨0, "/users/7".data, "GET".data⟩).1
      = .ok (1, [("id".data, RVal.vint 7)]) := by decide
  have h2 : (Router.getCached
      (runReqs ⟨Router.add [] "/users/<id:int>".data ["GET".data] 1, [], 5⟩
        [⟨1, "/users/7".data, "GET".data⟩])
      ⟨1, "/users/7".data, "GET".data⟩).1
      = .ok (1, [("id".data, RVal.vint 7)]) := by decide
  exact ⟨hcons1, hcons2, h1, h2,
    (claim9_cache_coherence _ 5 5 [] [⟨1, "/users/7".data, "GET".data⟩]
      ⟨0, "/users/7".data, "GET".data⟩ ⟨1, "/users/7".data, "GET".data⟩
      _ _ hcons1 hcons2 rfl rfl h1 h2).1⟩
